import Mathlib

/-!
Verification of the IEBus controller (jadjer/esp-iebus).

The physical bit codec (`Driver.cpp`) is embedded as pure functions over a
stream of measured active-pulse widths in microseconds (`Nat → Int`): every
call to `receiveBit` / `receiveStartBit` / `receiveAckBit` consumes the next
pulse of the stream, in order.  The link-layer framer (`Controller.cpp`) is
embedded as functions that consume that stream and additionally record the
observable bus output: the handshake (ACK/NAK) bits transmitted during a
read, and the start/data bits transmitted during a write, together with the
payload-array indices accessed.
-/

namespace IEBus

/-- Timing constants from `Driver.cpp`. -/
def START_BIT_HIGH_US : Int := 171

/-- Tolerance window for start-bit classification (`Driver.cpp`). -/
def START_BIT_THRESHOLD_US : Int := 20

/-- Canonical high duration of a logical 0 data bit (`Driver.cpp`). -/
def DATA_BIT_0_HIGH_US : Int := 33

/-- Canonical high duration of a logical 1 data bit (`Driver.cpp`). -/
def DATA_BIT_1_HIGH_US : Int := 20

/-- Fixed size of the payload array in `Message.hpp`. -/
def MAX_MESSAGE_SIZE : Nat := 256

/-- Broadcast-type field of a frame (`Message.hpp`). -/
inductive BroadcastType
  | BROADCAST
  | FOR_DEVICE
  deriving DecidableEq

/-- Handshake values (`Driver.hpp`). -/
inductive AcknowledgmentType
  | ACK
  | NAK
  deriving DecidableEq

/-- One bus frame (`Message.hpp`).  The fixed 256-byte payload array is
modelled as a total function from index to stored byte. -/
structure Message where
  broadcast : BroadcastType
  master : Nat
  slave : Nat
  control : Nat
  dataLength : Nat
  data : Nat → Nat

/-- Function `decodeBit` from `Driver.cpp`: classify a measured active-pulse width as
a logical bit by comparing distances to the two canonical widths. -/
def decodeBit (pulseWidthUs : Int) : Nat :=
  let diff0 := (pulseWidthUs - DATA_BIT_0_HIGH_US).natAbs
  let diff1 := (pulseWidthUs - DATA_BIT_1_HIGH_US).natAbs
  if diff1 < diff0 then 1 else 0

/-- Embedding of `Driver::receiveStartBit`, applied to the first pulse (index 0) of the
stream: the measured high duration must fall inside the tolerance window
around the canonical start-bit width. -/
def receiveStartBit (s : Nat → Int) : Bool :=
  decide (START_BIT_HIGH_US - START_BIT_THRESHOLD_US ≤ s 0 ∧
          s 0 ≤ START_BIT_HIGH_US + START_BIT_THRESHOLD_US)

/-- Embedding of `Driver::receiveBit`, reading the pulse at stream index `i`. -/
def receiveBit (s : Nat → Int) (i : Nat) : Nat :=
  decodeBit (s i)

/-- Embedding of `Driver::receiveBits`: compose `numBits` single-bit receptions starting
at stream index `pos` into an unsigned value, most-significant bit first
(`result |= bitValue << (numBits - 1 - i)`). -/
def receiveBits (s : Nat → Int) (pos : Nat) (numBits : Nat) : Nat :=
  (List.range numBits).foldl
    (fun result i => result ||| receiveBit s (pos + i) <<< (numBits - 1 - i)) 0

/-- Embedding of `Driver::receiveAckBit`, reading the pulse at stream index `i`:
bit 0 means Acknowledged, anything else means Rejected. -/
def receiveAckBit (s : Nat → Int) (i : Nat) : AcknowledgmentType :=
  if receiveBit s i = 0 then AcknowledgmentType.ACK else AcknowledgmentType.NAK

/-- The high duration of the pulse emitted by `Driver::transmitBit` for a
given bit value (`bit ? DATA_BIT_1_HIGH_US : DATA_BIT_0_HIGH_US`). -/
def transmitBitHigh (bit : Nat) : Int :=
  if bit ≠ 0 then DATA_BIT_1_HIGH_US else DATA_BIT_0_HIGH_US

/-- Embedding of `Driver::transmitBits`: the sequence of bit values emitted for `data`
over `numBits` bits, most-significant bit first
(`bit = data >> (numBits - 1 - i) & 1`). -/
def transmitBits (data : Nat) (numBits : Nat) : List Nat :=
  (List.range numBits).map (fun i => data >>> (numBits - 1 - i) &&& 1)

/-- Embedding of `Controller::calculateParity`: exclusive-OR of the `size` low-order bits
of `data` (`parity ^= data >> i & 1`). -/
def calculateParity (data : Nat) (size : Nat) : Nat :=
  (List.range size).foldl (fun parity i => parity ^^^ (data >>> i &&& 1)) 0

/-- Embedding of `Controller::checkParity`: the computed parity must equal the received
parity bit. -/
def checkParity (data : Nat) (size : Nat) (parity : Nat) : Bool :=
  calculateParity data size == parity

/-- Which field of the frame a handshake bit was sent for, in
`Controller::readMessage`. -/
inductive FieldTag
  | masterField
  | slaveField
  | controlField
  | lengthField
  | dataField (i : Nat)
  deriving DecidableEq

/-- One handshake (ACK/NAK) bit transmitted by `Controller::readMessage`:
the field it answers, the stream index of the peer's handshake-request
pulse it responds to, and the value sent. -/
structure AckEvent where
  tag : FieldTag
  reqIdx : Nat
  sent : AcknowledgmentType
  deriving DecidableEq

/-- Outcome of `Controller::readMessage`: the optional message, the
handshake bits transmitted, the number of pulses consumed from the bus, and
the payload-array indices written (in order). -/
structure ReadResult where
  message : Option Message
  acks : List AckEvent
  consumed : Nat
  writes : List Nat

/-- Outcome of one per-field "parity bit, ack-request bit, conditional
handshake" tail in `Controller::readMessage`.  `value` has already been
received at `pos`; the parity bit is the pulse at `pos + width` and the
peer's handshake-request bit the pulse at `pos + width + 1`. -/
structure FieldStep where
  ok : Bool
  acks : List AckEvent
  nextPos : Nat

/-- The per-field tail repeated verbatim for the slave, control, length and
each data field of `Controller::readMessage`: receive the parity bit,
receive the peer ack-request bit, and answer (NAK on parity failure, ACK on
success) exactly when the request was ACK, the frame is `FOR_DEVICE`, and
the frame's slave address equals this node's address. -/
def fieldStep (s : Nat → Int) (address : Nat) (broadcast : BroadcastType)
    (slave : Nat) (tag : FieldTag) (value : Nat) (width : Nat) (pos : Nat) :
    FieldStep :=
  let parityBit := receiveBit s (pos + width)
  let reqIdx := pos + width + 1
  let ackBit := receiveAckBit s reqIdx
  let isNeedAnswer := ackBit = AcknowledgmentType.ACK
  let isForDevice := broadcast = BroadcastType.FOR_DEVICE
  let isForThisDevice := slave = address
  if checkParity value width parityBit then
    { ok := true
      acks := if isNeedAnswer ∧ isForDevice ∧ isForThisDevice then
          [⟨tag, reqIdx, AcknowledgmentType.ACK⟩] else []
      nextPos := pos + width + 2 }
  else
    { ok := false
      acks := if isNeedAnswer ∧ isForDevice ∧ isForThisDevice then
          [⟨tag, reqIdx, AcknowledgmentType.NAK⟩] else []
      nextPos := pos + width + 2 }

/-- The data loop of `Controller::readMessage`: at each iteration the byte
is received and stored into `data[i]` first, then its parity is checked and
the handshake is answered by the same rule as every other field; any parity
failure aborts the whole frame. -/
def readDataLoop (s : Nat → Int) (address : Nat) (broadcast : BroadcastType)
    (slave : Nat) :
    Nat → Nat → Nat → Message → List AckEvent → List Nat → ReadResult
  | pos, _, 0, msg, acks, writes =>
    { message := some msg, acks := acks, consumed := pos, writes := writes }
  | pos, i, rem + 1, msg, acks, writes =>
    let byte := receiveBits s pos 8
    let msg' : Message :=
      { msg with data := fun j => if j = i then byte else msg.data j }
    let writes' := writes ++ [i]
    let st := fieldStep s address broadcast slave (FieldTag.dataField i) byte 8 pos
    if st.ok then
      readDataLoop s address broadcast slave st.nextPos (i + 1) rem msg'
        (acks ++ st.acks) writes'
    else
      { message := none, acks := acks ++ st.acks, consumed := st.nextPos,
        writes := writes' }

/-- Embedding of `Controller::readMessage`.  Pulse layout: start bit at stream index 0,
broadcast bit at 1, master field at 2..13 with parity at 14 (no handshake),
then for each later field its bits, parity bit and ack-request bit in
order. -/
def readMessage (enabled : Bool) (address : Nat) (s : Nat → Int) : ReadResult :=
  if enabled then
    if receiveStartBit s then
      let broadcast := if receiveBit s 1 = 0 then BroadcastType.BROADCAST
        else BroadcastType.FOR_DEVICE
      let master := receiveBits s 2 12
      if checkParity master 12 (receiveBit s 14) then
        let slave := receiveBits s 15 12
        let stS := fieldStep s address broadcast slave FieldTag.slaveField slave 12 15
        if stS.ok then
          let control := receiveBits s stS.nextPos 4
          let stC := fieldStep s address broadcast slave FieldTag.controlField
            control 4 stS.nextPos
          if stC.ok then
            let lenRaw := receiveBits s stC.nextPos 8
            let stL := fieldStep s address broadcast slave FieldTag.lengthField
              lenRaw 8 stC.nextPos
            if stL.ok then
              let len := if lenRaw = 0 then 256 else lenRaw
              readDataLoop s address broadcast slave stL.nextPos 0 len
                { broadcast := broadcast, master := master, slave := slave,
                  control := control, dataLength := len, data := fun _ => 0 }
                (stS.acks ++ stC.acks ++ stL.acks) []
            else
              { message := none, acks := stS.acks ++ stC.acks ++ stL.acks,
                consumed := stL.nextPos, writes := [] }
          else
            { message := none, acks := stS.acks ++ stC.acks,
              consumed := stC.nextPos, writes := [] }
        else
          { message := none, acks := stS.acks, consumed := stS.nextPos,
            writes := [] }
      else
        { message := none, acks := [], consumed := 15, writes := [] }
    else
      { message := none, acks := [], consumed := 1, writes := [] }
  else
    { message := none, acks := [], consumed := 0, writes := [] }

/-- One transmitted item on the bus during `Controller::writeMessage`. -/
inductive TxItem
  | startBit
  | dataBit (b : Nat)
  deriving DecidableEq

/-- Outcome of `Controller::writeMessage`: the reported success, the full
ordered transmission trace, and the payload-array indices read (in
order). -/
structure WriteResult where
  success : Bool
  tx : List TxItem
  reads : List Nat

/-- Everything `Controller::writeMessage` transmits before the first
awaited handshake: start bit, broadcast bit, master field and its parity
bit. -/
def writeHeader (m : Message) : List TxItem :=
  [TxItem.startBit,
   TxItem.dataBit (if m.broadcast = BroadcastType.BROADCAST then 0 else 1)]
    ++ (transmitBits m.master 12).map TxItem.dataBit
    ++ [TxItem.dataBit (calculateParity m.master 12)]

/-- The bits and parity bit transmitted for the k-th handshake-awaited
field of `Controller::writeMessage`: 0 = slave, 1 = control, 2 = length,
3 + j = payload byte j.  The length field goes through the `Data`
(16-bit) parameter type of `transmitBits` and `calculateParity`, hence the
`% 65536`. -/
def writeChunk (m : Message) : Nat → List TxItem
  | 0 => (transmitBits m.slave 12).map TxItem.dataBit
      ++ [TxItem.dataBit (calculateParity m.slave 12)]
  | 1 => (transmitBits m.control 4).map TxItem.dataBit
      ++ [TxItem.dataBit (calculateParity m.control 4)]
  | 2 => (transmitBits (m.dataLength % 65536) 8).map TxItem.dataBit
      ++ [TxItem.dataBit (calculateParity (m.dataLength % 65536) 8)]
  | j + 3 => (transmitBits (m.data j) 8).map TxItem.dataBit
      ++ [TxItem.dataBit (calculateParity (m.data j) 8)]

/-- The transmission trace of `Controller::writeMessage` through the k-th
handshake-awaited field inclusive. -/
def writeUpTo (m : Message) (k : Nat) : List TxItem :=
  writeHeader m ++ ((List.range (k + 1)).map (writeChunk m)).flatten

/-- The payload loop of `Controller::writeMessage`: each iteration reads
`data[i]`, transmits its bits and parity, then awaits the peer handshake
(the pulse at ack index `i + 3`) and aborts on Rejected. -/
def writeDataLoop (m : Message) (s : Nat → Int) :
    Nat → Nat → List TxItem → List Nat → WriteResult
  | _, 0, tx, reads => { success := true, tx := tx, reads := reads }
  | i, rem + 1, tx, reads =>
    let reads' := reads ++ [i]
    let tx' := tx ++ writeChunk m (i + 3)
    if receiveAckBit s (i + 3) = AcknowledgmentType.NAK then
      { success := false, tx := tx', reads := reads' }
    else
      writeDataLoop m s (i + 1) rem tx' reads'

/-- Embedding of `Controller::writeMessage`.  The received handshake bits are the pulses
of `s` in consumption order: index 0 answers the slave field, 1 the
control field, 2 the length field, and 3 + j payload byte j. -/
def writeMessage (enabled : Bool) (m : Message) (s : Nat → Int) : WriteResult :=
  if enabled then
    let t1 := writeHeader m ++ writeChunk m 0
    if receiveAckBit s 0 = AcknowledgmentType.NAK then
      { success := false, tx := t1, reads := [] }
    else
      let t2 := t1 ++ writeChunk m 1
      if receiveAckBit s 1 = AcknowledgmentType.NAK then
        { success := false, tx := t2, reads := [] }
      else
        let t3 := t2 ++ writeChunk m 2
        if receiveAckBit s 2 = AcknowledgmentType.NAK then
          { success := false, tx := t3, reads := [] }
        else
          writeDataLoop m s 0 m.dataLength t3 []
  else
    { success := false, tx := [], reads := [] }

/-- A concrete pulse stream: valid start bit, `FOR_DEVICE` broadcast bit,
master 0, slave 0, control 0, raw length 1 (bit at index 42, parity at 43),
one zero payload byte, every parity correct and every peer ack-request
ACK. -/
def wStream : Nat → Int := fun n =>
  if n = 0 then 171 else if n = 1 then 20 else if n = 42 then 20
  else if n = 43 then 20 else 33

/-- The message `readMessage` yields on `wStream` with local address 0. -/
def msgW : Message :=
  { broadcast := BroadcastType.FOR_DEVICE, master := 0, slave := 0,
    control := 0, dataLength := 1, data := fun j => if j = 0 then 0 else 0 }

/-- A pulse stream whose every bit is 0, i.e. every handshake ACK. -/
def sAllAck : Nat → Int := fun _ => 33

/-- A pulse stream whose every bit is 1, i.e. every handshake NAK. -/
def sAllNak : Nat → Int := fun _ => 20

/-- A pulse stream with no valid start bit. -/
def sNoStart : Nat → Int := fun _ => 0

/-- A small concrete message for write-path witnesses. -/
def mW : Message :=
  { broadcast := BroadcastType.BROADCAST, master := 0, slave := 0,
    control := 0, dataLength := 2, data := fun _ => 0 }

/-- A concrete message of logical length 256 (wire pattern 0). -/
def mW256 : Message :=
  { broadcast := BroadcastType.BROADCAST, master := 0, slave := 0,
    control := 0, dataLength := 256, data := fun _ => 0 }

/-- A concrete message whose `dataLength` exceeds the payload array. -/
def mW257 : Message :=
  { broadcast := BroadcastType.BROADCAST, master := 0, slave := 0,
    control := 0, dataLength := 257, data := fun _ => 0 }

theorem shiftRight_and_one (x i : Nat) : x >>> i &&& 1 = x / 2 ^ i % 2 := by
  rw [Nat.shiftRight_eq_div_pow, Nat.and_one_is_mod]

theorem shiftRight_and_one_le (x i : Nat) : x >>> i &&& 1 ≤ 1 := by
  rw [shiftRight_and_one]; omega

theorem shiftLeft_or_distrib (a b k : Nat) :
    (a ||| b) <<< k = a <<< k ||| b <<< k := by
  apply Nat.eq_of_testBit_eq; intro j
  simp [Nat.testBit_shiftLeft, Nat.testBit_or, Bool.and_or_distrib_left]

theorem two_mul_or_bit (x b : Nat) (hb : b ≤ 1) : 2 * x ||| b = 2 * x + b := by
  rcases Nat.le_one_iff_eq_zero_or_eq_one.mp hb with rfl | rfl
  · simp
  · apply Nat.eq_of_testBit_eq; intro j
    cases j with
    | zero =>
      rw [Nat.testBit_or]
      simp only [Nat.testBit_zero]
      have h1 : (2 * x) % 2 = 0 := by omega
      have h2 : (2 * x + 1) % 2 = 1 := by omega
      simp [h1, h2]
    | succ j =>
      rw [Nat.testBit_or, Nat.testBit_succ, Nat.testBit_succ, Nat.testBit_succ]
      have h1 : 2 * x / 2 = x := by omega
      have h2 : (2 * x + 1) / 2 = x := by omega
      have h3 : (1 : Nat) / 2 = 0 := by omega
      simp [h1, h2, h3]

theorem two_mul_or_two_mul (a c : Nat) : 2 * a ||| 2 * c = 2 * (a ||| c) := by
  have h : ∀ y : Nat, 2 * y = y <<< 1 := by
    intro y; rw [Nat.shiftLeft_eq]; ring
  rw [h a, h c, h (a ||| c), ← shiftLeft_or_distrib]

theorem fold_or_shift (b : Nat → Nat) :
    ∀ (l : List Nat) (n : Nat) (acc : Nat), (∀ k ∈ l, k < n) →
      l.foldl (fun r i => r ||| b i <<< (n - i)) (2 * acc) =
        2 * l.foldl (fun r i => r ||| b i <<< (n - 1 - i)) acc := by
  intro l; induction l with
  | nil => intro n acc _; rfl
  | cons k l ih =>
    intro n acc h
    have hk : k < n := h k (by simp)
    simp only [List.foldl_cons]
    have h1 : n - k = (n - 1 - k) + 1 := by omega
    rw [h1, Nat.shiftLeft_succ, two_mul_or_two_mul]
    exact ih n _ (fun x hx => h x (by simp [hx]))

theorem decodeBit_le_one (w : Int) : decodeBit w ≤ 1 := by
  unfold decodeBit; dsimp only; split <;> omega

theorem receiveBit_le_one (s : Nat → Int) (i : Nat) : receiveBit s i ≤ 1 :=
  decodeBit_le_one (s i)

theorem receiveBits_succ (s : Nat → Int) (pos n : Nat) :
    receiveBits s pos (n + 1) =
      2 * receiveBits s pos n + receiveBit s (pos + n) := by
  unfold receiveBits
  rw [List.range_succ, List.foldl_append]
  simp only [Nat.add_sub_cancel]
  have h0 : List.foldl
      (fun r i => r ||| receiveBit s (pos + i) <<< (n - i)) 0 (List.range n) =
      2 * List.foldl
        (fun r i => r ||| receiveBit s (pos + i) <<< (n - 1 - i)) 0
        (List.range n) := by
    have := fold_or_shift (fun i => receiveBit s (pos + i)) (List.range n) n 0
      (fun k hk => List.mem_range.mp hk)
    simpa using this
  rw [h0]
  simp only [List.foldl_cons, List.foldl_nil, Nat.sub_self, Nat.shiftLeft_zero]
  exact two_mul_or_bit _ _ (receiveBit_le_one s (pos + n))

theorem receiveBits_eq_sum (s : Nat → Int) (pos : Nat) :
    ∀ n, receiveBits s pos n =
      ∑ k ∈ Finset.range n, receiveBit s (pos + k) * 2 ^ (n - 1 - k) := by
  intro n; induction n with
  | zero => simp [receiveBits]
  | succ n ih =>
    rw [receiveBits_succ, ih, Finset.sum_range_succ, Finset.mul_sum]
    congr 1
    · apply Finset.sum_congr rfl
      intro k hk
      have hkn : k < n := Finset.mem_range.mp hk
      have h : n + 1 - 1 - k = (n - 1 - k) + 1 := by omega
      rw [h, pow_succ]; ring
    · have h : n + 1 - 1 - n = 0 := by omega
      rw [h]; simp

theorem receiveBits_lt (s : Nat → Int) (pos : Nat) :
    ∀ n, receiveBits s pos n < 2 ^ n := by
  intro n; induction n with
  | zero => simp [receiveBits]
  | succ n ih =>
    rw [receiveBits_succ]
    have hb := receiveBit_le_one s (pos + n)
    have h2 : (2:Nat) ^ (n + 1) = 2 * 2 ^ n := by rw [pow_succ]; ring
    omega

theorem receiveBits_congr (s₁ s₂ : Nat → Int) (pos : Nat) :
    ∀ n, (∀ k, k < n → s₁ (pos + k) = s₂ (pos + k)) →
      receiveBits s₁ pos n = receiveBits s₂ pos n := by
  intro n; induction n with
  | zero => intro _; rfl
  | succ n ih =>
    intro h
    rw [receiveBits_succ, receiveBits_succ,
      ih (fun k hk => h k (by omega)), receiveBit, receiveBit,
      h n (by omega)]

theorem decode_transmit (b : Nat) (hb : b ≤ 1) :
    decodeBit (transmitBitHigh b) = b := by
  rcases Nat.le_one_iff_eq_zero_or_eq_one.mp hb with rfl | rfl <;> decide

theorem transmit_stream_at (v n k : Nat) (hk : k < n) :
    ((transmitBits v n).map transmitBitHigh).getD k 0 =
      transmitBitHigh (v >>> (n - 1 - k) &&& 1) := by
  unfold transmitBits
  rw [List.getD_eq_getElem?_getD, List.getElem?_map, List.getElem?_map,
    List.getElem?_range hk]
  rfl

theorem transmit_roundtrip :
    ∀ n v, v < 2 ^ n →
      receiveBits (fun k => ((transmitBits v n).map transmitBitHigh).getD k 0)
        0 n = v := by
  intro n; induction n with
  | zero =>
    intro v hv
    have hv0 : v = 0 := by omega
    subst hv0; rfl
  | succ n ih =>
    intro v hv
    rw [receiveBits_succ]
    have hlast :
        receiveBit
          (fun k => ((transmitBits v (n + 1)).map transmitBitHigh).getD k 0)
          (0 + n) = v % 2 := by
      show decodeBit
        (((transmitBits v (n + 1)).map transmitBitHigh).getD (0 + n) 0) = v % 2
      rw [Nat.zero_add, transmit_stream_at v (n + 1) n (by omega)]
      have h0 : n + 1 - 1 - n = 0 := by omega
      rw [h0, decode_transmit _ (shiftRight_and_one_le v 0),
        shiftRight_and_one]
      simp
    have hinit :
        receiveBits
          (fun k => ((transmitBits v (n + 1)).map transmitBitHigh).getD k 0)
          0 n =
        receiveBits
          (fun k => ((transmitBits (v / 2) n).map transmitBitHigh).getD k 0)
          0 n := by
      apply receiveBits_congr
      intro k hk
      simp only [Nat.zero_add]
      rw [transmit_stream_at v (n + 1) k (by omega),
        transmit_stream_at (v / 2) n k hk]
      congr 1
      have h1 : n + 1 - 1 - k = (n - 1 - k) + 1 := by omega
      rw [h1, shiftRight_and_one, shiftRight_and_one, pow_succ,
        ← Nat.div_div_eq_div_mul, Nat.div_div_eq_div_mul, mul_comm,
        ← Nat.div_div_eq_div_mul]
    have hv2 : v / 2 < 2 ^ n := by
      have h2 : (2:Nat) ^ (n + 1) = 2 * 2 ^ n := by rw [pow_succ]; ring
      omega
    rw [hlast, hinit, ih (v / 2) hv2]
    omega

/-- Claim C8: `decodeBit` classifies a measured pulse width as the symbol
whose canonical high duration is nearest in absolute distance, and resolves
an exact tie to symbol 0. -/
theorem decodeBit_nearest (w : Int) :
    decodeBit w =
      if (w - DATA_BIT_0_HIGH_US).natAbs ≤ (w - DATA_BIT_1_HIGH_US).natAbs
      then 0 else 1 := by
  unfold decodeBit
  dsimp only
  split_ifs <;> omega

/-- Claim C7: `receiveBits` assembles single-bit receptions
most-significant-bit first (the k-th received bit carries weight
`2 ^ (n - 1 - k)`), `transmitBits` emits bits in the same order, and
decoding the pulse sequence produced by `transmitBits` through the receive
path yields the original value for every width n ∈ {1, 4, 8, 12} and every
representable value. -/
theorem receiveBits_msb_first_roundtrip :
    (∀ (s : Nat → Int) (pos n : Nat),
      receiveBits s pos n =
        ∑ k ∈ Finset.range n, receiveBit s (pos + k) * 2 ^ (n - 1 - k)) ∧
    (∀ v n : Nat,
      transmitBits v n = (List.range n).map fun i => v >>> (n - 1 - i) &&& 1) ∧
    (∀ n, n = 1 ∨ n = 4 ∨ n = 8 ∨ n = 12 → ∀ v, v < 2 ^ n →
      receiveBits (fun k => ((transmitBits v n).map transmitBitHigh).getD k 0)
        0 n = v) := by
  refine ⟨receiveBits_eq_sum, fun v n => rfl, fun n _ v hv => ?_⟩
  exact transmit_roundtrip n v hv

/-- Witness for C7: the 4-bit round trip at the concrete value 11. -/
theorem receiveBits_msb_first_roundtrip_witness :
    receiveBits
      (fun k => ((transmitBits 11 4).map transmitBitHigh).getD k 0) 0 4 = 11 :=
  receiveBits_msb_first_roundtrip.2.2 4 (by decide) 11 (by decide)

theorem testBit_toNat (x i : Nat) : x >>> i &&& 1 = (x.testBit i).toNat := by
  rw [Nat.testBit_to_div_mod, shiftRight_and_one]
  have h : x / 2 ^ i % 2 = 0 ∨ x / 2 ^ i % 2 = 1 := by omega
  rcases h with h | h <;> simp [h]

theorem calculateParity_succ (v n : Nat) :
    calculateParity v (n + 1) = calculateParity v n ^^^ (v >>> n &&& 1) := by
  unfold calculateParity
  rw [List.range_succ, List.foldl_append]
  simp

theorem calculateParity_le_one (v : Nat) : ∀ n, calculateParity v n ≤ 1 := by
  intro n; induction n with
  | zero => simp [calculateParity]
  | succ n ih =>
    rw [calculateParity_succ]
    have hb := shiftRight_and_one_le v n
    rcases Nat.le_one_iff_eq_zero_or_eq_one.mp ih with h | h <;>
      rcases Nat.le_one_iff_eq_zero_or_eq_one.mp hb with h2 | h2 <;>
      rw [h, h2] <;> decide

theorem calculateParity_congr (a b : Nat) :
    ∀ n, (∀ i, i < n → a >>> i &&& 1 = b >>> i &&& 1) →
      calculateParity a n = calculateParity b n := by
  intro n; induction n with
  | zero => intro _; rfl
  | succ n ih =>
    intro h
    rw [calculateParity_succ, calculateParity_succ,
      ih (fun i hi => h i (by omega)), h n (by omega)]

theorem bit_xor (a b i : Nat) :
    (a ^^^ b) >>> i &&& 1 = (a >>> i &&& 1) ^^^ (b >>> i &&& 1) := by
  rw [testBit_toNat, testBit_toNat, testBit_toNat, Nat.testBit_xor]
  cases a.testBit i <;> cases b.testBit i <;> rfl

theorem bit_one_shiftLeft (k i : Nat) :
    (1 <<< k) >>> i &&& 1 = if i = k then 1 else 0 := by
  rw [testBit_toNat, Nat.one_shiftLeft]
  by_cases h : i = k
  · subst h; simp [Nat.testBit_two_pow_self]
  · rw [Nat.testBit_two_pow_of_ne (fun hh => h hh.symm)]
    simp [h]

theorem calculateParity_flip :
    ∀ n v k, k < n →
      calculateParity (v ^^^ (1 <<< k)) n = 1 ^^^ calculateParity v n := by
  intro n; induction n with
  | zero => intro v k h; omega
  | succ n ih =>
    intro v k hk
    rw [calculateParity_succ, calculateParity_succ]
    by_cases h : k = n
    · subst h
      have hpre : calculateParity (v ^^^ (1 <<< k)) k = calculateParity v k := by
        apply calculateParity_congr
        intro i hi
        rw [bit_xor, bit_one_shiftLeft, if_neg (by omega : ¬ i = k)]
        simp
      rw [hpre, bit_xor, bit_one_shiftLeft, if_pos rfl,
        ← Nat.xor_assoc, Nat.xor_comm (calculateParity v k ^^^ (v >>> k &&& 1)) 1]
    · have hkn : k < n := by omega
      rw [ih v k hkn, bit_xor, bit_one_shiftLeft, if_neg (by omega : ¬ n = k),
        Nat.xor_zero, Nat.xor_assoc]

theorem calculateParity_eq_countP (v : Nat) :
    ∀ n, calculateParity v n =
      ((List.range n).countP fun i => v.testBit i) % 2 := by
  intro n; induction n with
  | zero => simp [calculateParity]
  | succ n ih =>
    rw [calculateParity_succ, ih, List.range_succ, List.countP_append,
      testBit_toNat]
    simp only [List.countP_cons, List.countP_nil]
    cases htb : v.testBit n
    · simp
    · simp only [htb, Bool.toNat_true, if_pos rfl]
      have h : ((List.range n).countP fun i => v.testBit i) % 2 = 0 ∨
          ((List.range n).countP fun i => v.testBit i) % 2 = 1 := by omega
      rcases h with h | h <;> rw [h] <;> simp <;> omega

/-- Claim C6: `calculateParity` is the exclusive-OR of the low-order bits of
its argument; the computed parity always re-checks successfully, and for
every field width n ∈ {4, 8, 12} flipping any single one of the n bits
makes the check against the original parity fail. -/
theorem parity_xor_roundtrip :
    (∀ v n : Nat,
      calculateParity v n = ((List.range n).countP fun i => v.testBit i) % 2) ∧
    (∀ n, n = 4 ∨ n = 8 ∨ n = 12 → ∀ v, v < 2 ^ n →
      checkParity v n (calculateParity v n) = true ∧
      ∀ k, k < n →
        checkParity (v ^^^ (1 <<< k)) n (calculateParity v n) = false) := by
  refine ⟨calculateParity_eq_countP, fun n _ v _ => ⟨?_, fun k hk => ?_⟩⟩
  · unfold checkParity; simp
  · unfold checkParity
    rw [calculateParity_flip n v k hk]
    have hp := calculateParity_le_one v n
    rcases Nat.le_one_iff_eq_zero_or_eq_one.mp hp with h | h <;> rw [h] <;> rfl

/-- Witness for C6: parity round trip and single-bit-flip detection at the
concrete width 4, value 5, flipped bit 1. -/
theorem parity_xor_roundtrip_witness :
    checkParity 5 4 (calculateParity 5 4) = true ∧
    checkParity (5 ^^^ (1 <<< 1)) 4 (calculateParity 5 4) = false := by
  have h := parity_xor_roundtrip.2 4 (Or.inl rfl) 5 (by decide)
  exact ⟨h.1, h.2 1 (by decide)⟩

theorem receiveAckBit_eq_ACK (s : Nat → Int) (i : Nat) :
    receiveAckBit s i = AcknowledgmentType.ACK ↔ receiveBit s i = 0 := by
  unfold receiveAckBit; split <;> simp [*]

theorem receiveAckBit_eq_NAK (s : Nat → Int) (i : Nat) :
    receiveAckBit s i = AcknowledgmentType.NAK ↔ receiveBit s i ≠ 0 := by
  unfold receiveAckBit; split <;> simp [*]

theorem fieldStep_nextPos (s : Nat → Int) (a : Nat) (bc : BroadcastType)
    (sl : Nat) (tag : FieldTag) (v w p : Nat) :
    (fieldStep s a bc sl tag v w p).nextPos = p + w + 2 := by
  unfold fieldStep; dsimp only; split <;> rfl

theorem fieldStep_ok (s : Nat → Int) (a : Nat) (bc : BroadcastType)
    (sl : Nat) (tag : FieldTag) (v w p : Nat) :
    (fieldStep s a bc sl tag v w p).ok = checkParity v w (receiveBit s (p + w)) := by
  unfold fieldStep; dsimp only; split <;> simp [*]

theorem fieldStep_acks_mem {s : Nat → Int} {a : Nat} {bc : BroadcastType}
    {sl : Nat} {tag : FieldTag} {v w p : Nat} {e : AckEvent}
    (he : e ∈ (fieldStep s a bc sl tag v w p).acks) :
    e.tag = tag ∧ e.reqIdx = p + w + 1 ∧ bc = BroadcastType.FOR_DEVICE ∧
      sl = a ∧ receiveBit s (p + w + 1) = 0 := by
  unfold fieldStep at he
  dsimp only at he
  split at he <;> dsimp only at he <;> split at he
  · rename_i hcond
    simp only [List.mem_singleton] at he
    subst he
    exact ⟨rfl, rfl, hcond.2.1, hcond.2.2, (receiveAckBit_eq_ACK s _).mp hcond.1⟩
  · exact absurd he (List.not_mem_nil e)
  · rename_i hcond
    simp only [List.mem_singleton] at he
    subst he
    exact ⟨rfl, rfl, hcond.2.1, hcond.2.2, (receiveAckBit_eq_ACK s _).mp hcond.1⟩
  · exact absurd he (List.not_mem_nil e)

theorem readDataLoop_zero (s : Nat → Int) (a : Nat) (bc : BroadcastType)
    (sl : Nat) (pos i : Nat) (msg : Message) (acks : List AckEvent)
    (writes : List Nat) :
    readDataLoop s a bc sl pos i 0 msg acks writes =
      { message := some msg, acks := acks, consumed := pos, writes := writes } :=
  rfl

theorem readDataLoop_succ (s : Nat → Int) (a : Nat) (bc : BroadcastType)
    (sl : Nat) (pos i rem : Nat) (msg : Message) (acks : List AckEvent)
    (writes : List Nat) :
    readDataLoop s a bc sl pos i (rem + 1) msg acks writes =
      (if (fieldStep s a bc sl (FieldTag.dataField i)
            (receiveBits s pos 8) 8 pos).ok then
        readDataLoop s a bc sl
          (fieldStep s a bc sl (FieldTag.dataField i)
            (receiveBits s pos 8) 8 pos).nextPos
          (i + 1) rem
          { msg with data := fun j => if j = i then receiveBits s pos 8
              else msg.data j }
          (acks ++ (fieldStep s a bc sl (FieldTag.dataField i)
            (receiveBits s pos 8) 8 pos).acks)
          (writes ++ [i])
      else
        { message := none,
          acks := acks ++ (fieldStep s a bc sl (FieldTag.dataField i)
            (receiveBits s pos 8) 8 pos).acks,
          consumed := (fieldStep s a bc sl (FieldTag.dataField i)
            (receiveBits s pos 8) 8 pos).nextPos,
          writes := writes ++ [i] }) :=
  rfl

theorem readDataLoop_some (s : Nat → Int) (a : Nat) (bc : BroadcastType)
    (sl : Nat) :
    ∀ (rem pos i : Nat) (msg : Message) (acks : List AckEvent)
      (writes : List Nat) (m' : Message),
      (readDataLoop s a bc sl pos i rem msg acks writes).message = some m' →
      (m'.broadcast = msg.broadcast ∧ m'.master = msg.master ∧
        m'.slave = msg.slave ∧ m'.control = msg.control ∧
        m'.dataLength = msg.dataLength) ∧
      (∀ j, j < i → m'.data j = msg.data j) ∧
      (∀ j, i ≤ j → j < i + rem →
        m'.data j = receiveBits s (pos + 10 * (j - i)) 8 ∧
        checkParity (m'.data j) 8 (receiveBit s (pos + 10 * (j - i) + 8)) = true) ∧
      (readDataLoop s a bc sl pos i rem msg acks writes).writes =
        writes ++ List.range' i rem ∧
      (readDataLoop s a bc sl pos i rem msg acks writes).consumed =
        pos + 10 * rem := by
  intro rem
  induction rem with
  | zero =>
    intro pos i msg acks writes m' h
    rw [readDataLoop_zero] at h
    simp only [Option.some.injEq] at h
    subst h
    refine ⟨⟨rfl, rfl, rfl, rfl, rfl⟩, fun j _ => rfl, fun j h1 h2 => by omega,
      ?_, ?_⟩
    · rw [readDataLoop_zero]; simp
    · rw [readDataLoop_zero]; simp
  | succ rem ih =>
    intro pos i msg acks writes m' h
    rw [readDataLoop_succ] at h ⊢
    by_cases hok : (fieldStep s a bc sl (FieldTag.dataField i)
        (receiveBits s pos 8) 8 pos).ok = true
    · rw [if_pos hok] at h ⊢
      have hnp : (fieldStep s a bc sl (FieldTag.dataField i)
          (receiveBits s pos 8) 8 pos).nextPos = pos + 10 := by
        rw [fieldStep_nextPos]
      rw [hnp] at h ⊢
      obtain ⟨hfields, hlow, hmid, hwr, hcons⟩ := ih (pos + 10) (i + 1) _ _ _ m' h
      refine ⟨hfields, ?_, ?_, ?_, ?_⟩
      · intro j hj
        have := hlow j (by omega)
        simpa [if_neg (by omega : ¬ j = i)] using this
      · intro j h1 h2
        by_cases hji : j = i
        · subst hji
          have hd : m'.data j = receiveBits s pos 8 := by
            have := hlow j (by omega)
            simpa using this
          have hp : checkParity (receiveBits s pos 8) 8
              (receiveBit s (pos + 8)) = true := by
            rw [fieldStep_ok] at hok
            exact hok
          constructor
          · simpa using hd
          · rw [hd]
            have harith : pos + 10 * (j - j) + 8 = pos + 8 := by omega
            rw [harith]
            exact hp
        · have h1' : i + 1 ≤ j := by omega
          have h2' : j < i + 1 + rem := by omega
          obtain ⟨hd, hp⟩ := hmid j h1' h2'
          have harith : pos + 10 + 10 * (j - (i + 1)) = pos + 10 * (j - i) := by
            omega
          rw [harith] at hd hp
          exact ⟨hd, hp⟩
      · rw [hwr, List.range'_succ]
        simp
      · rw [hcons]; omega
    · rw [if_neg hok] at h
      simp at h

theorem readDataLoop_acks (s : Nat → Int) (a : Nat) (bc : BroadcastType)
    (sl : Nat) :
    ∀ (rem pos i : Nat) (msg : Message) (acks : List AckEvent)
      (writes : List Nat) (e : AckEvent),
      e ∈ (readDataLoop s a bc sl pos i rem msg acks writes).acks →
      e ∈ acks ∨ (bc = BroadcastType.FOR_DEVICE ∧ sl = a ∧
        receiveBit s e.reqIdx = 0 ∧ ∃ j, e.tag = FieldTag.dataField j) := by
  intro rem
  induction rem with
  | zero =>
    intro pos i msg acks writes e he
    rw [readDataLoop_zero] at he
    exact Or.inl he
  | succ rem ih =>
    intro pos i msg acks writes e he
    rw [readDataLoop_succ] at he
    by_cases hok : (fieldStep s a bc sl (FieldTag.dataField i)
        (receiveBits s pos 8) 8 pos).ok = true
    · rw [if_pos hok] at he
      rcases ih _ _ _ _ _ e he with hin | hnew
      · rcases List.mem_append.mp hin with hl | hr
        · exact Or.inl hl
        · obtain ⟨htag, hreq, hbc, hsl, hbit⟩ := fieldStep_acks_mem hr
          exact Or.inr ⟨hbc, hsl, by rw [hreq]; exact hbit, i, htag⟩
      · exact Or.inr hnew
    · rw [if_neg hok] at he
      dsimp only at he
      rcases List.mem_append.mp he with hl | hr
      · exact Or.inl hl
      · obtain ⟨htag, hreq, hbc, hsl, hbit⟩ := fieldStep_acks_mem hr
        exact Or.inr ⟨hbc, hsl, by rw [hreq]; exact hbit, i, htag⟩

theorem readDataLoop_writes_mem (s : Nat → Int) (a : Nat) (bc : BroadcastType)
    (sl : Nat) :
    ∀ (rem pos i : Nat) (msg : Message) (acks : List AckEvent)
      (writes : List Nat) (x : Nat),
      x ∈ (readDataLoop s a bc sl pos i rem msg acks writes).writes →
      x ∈ writes ∨ x < i + rem := by
  intro rem
  induction rem with
  | zero =>
    intro pos i msg acks writes x hx
    rw [readDataLoop_zero] at hx
    exact Or.inl hx
  | succ rem ih =>
    intro pos i msg acks writes x hx
    rw [readDataLoop_succ] at hx
    by_cases hok : (fieldStep s a bc sl (FieldTag.dataField i)
        (receiveBits s pos 8) 8 pos).ok = true
    · rw [if_pos hok] at hx
      rcases ih _ _ _ _ _ x hx with hin | hlt
      · rcases List.mem_append.mp hin with hl | hr
        · exact Or.inl hl
        · simp only [List.mem_singleton] at hr
          exact Or.inr (by omega)
      · exact Or.inr (by omega)
    · rw [if_neg hok] at hx
      dsimp only at hx
      rcases List.mem_append.mp hx with hl | hr
      · exact Or.inl hl
      · simp only [List.mem_singleton] at hr
        exact Or.inr (by omega)

theorem readMessage_disabled (a : Nat) (s : Nat → Int) :
    readMessage false a s =
      { message := none, acks := [], consumed := 0, writes := [] } :=
  rfl

theorem readMessage_noStart (a : Nat) (s : Nat → Int)
    (h : receiveStartBit s = false) :
    readMessage true a s =
      { message := none, acks := [], consumed := 1, writes := [] } := by
  unfold readMessage
  rw [if_pos rfl, if_neg (by simp [h])]

theorem readMessage_some (a : Nat) (s : Nat → Int) (msg : Message)
    (h : (readMessage true a s).message = some msg) :
    receiveStartBit s = true ∧
    msg.broadcast = (if receiveBit s 1 = 0 then BroadcastType.BROADCAST
      else BroadcastType.FOR_DEVICE) ∧
    msg.master = receiveBits s 2 12 ∧
    checkParity msg.master 12 (receiveBit s 14) = true ∧
    msg.slave = receiveBits s 15 12 ∧
    checkParity msg.slave 12 (receiveBit s 27) = true ∧
    msg.control = receiveBits s 29 4 ∧
    checkParity msg.control 4 (receiveBit s 33) = true ∧
    checkParity (receiveBits s 35 8) 8 (receiveBit s 43) = true ∧
    msg.dataLength = (if receiveBits s 35 8 = 0 then 256
      else receiveBits s 35 8) ∧
    (∀ i, i < msg.dataLength →
      msg.data i = receiveBits s (45 + 10 * i) 8 ∧
      checkParity (msg.data i) 8 (receiveBit s (45 + 10 * i + 8)) = true) ∧
    (readMessage true a s).writes = List.range msg.dataLength ∧
    (readMessage true a s).consumed = 45 + 10 * msg.dataLength := by
  unfold readMessage at h ⊢
  rw [if_pos rfl] at h ⊢
  by_cases hsb : receiveStartBit s = true
  swap
  · rw [if_neg hsb] at h
    simp at h
  rw [if_pos hsb] at h ⊢
  simp only [fieldStep_nextPos, fieldStep_ok] at h ⊢
  norm_num at h ⊢
  by_cases hm : checkParity (receiveBits s 2 12) 12 (receiveBit s 14) = true
  swap
  · rw [if_neg hm] at h
    simp at h
  rw [if_pos hm] at h ⊢
  by_cases hS : checkParity (receiveBits s 15 12) 12 (receiveBit s 27) = true
  swap
  · rw [if_neg hS] at h
    simp at h
  rw [if_pos hS] at h ⊢
  by_cases hC : checkParity (receiveBits s 29 4) 4 (receiveBit s 33) = true
  swap
  · rw [if_neg hC] at h
    simp at h
  rw [if_pos hC] at h ⊢
  by_cases hL : checkParity (receiveBits s 35 8) 8 (receiveBit s 43) = true
  swap
  · rw [if_neg hL] at h
    simp at h
  rw [if_pos hL] at h ⊢
  obtain ⟨hfields, hlow, hmid, hwr, hcons⟩ :=
    readDataLoop_some s a _ _ _ 45 0 _ _ [] msg h
  obtain ⟨hbc, hma, hsl, hco, hdl⟩ := hfields
  dsimp only at hbc hma hsl hco hdl
  refine ⟨hsb, hbc, hma, ?_, hsl, ?_, hco, ?_, hL, hdl, ?_, ?_, ?_⟩
  · rw [hma]; exact hm
  · rw [hsl]; exact hS
  · rw [hco]; exact hC
  · intro i hi
    have hi' : i < 0 + (if receiveBits s 35 8 = 0 then 256
        else receiveBits s 35 8) := by
      rw [hdl] at hi
      omega
    obtain ⟨hd, hp⟩ := hmid i (by omega) hi'
    have harith : 45 + 10 * (i - 0) = 45 + 10 * i := by omega
    rw [harith] at hd hp
    exact ⟨hd, hp⟩
  · rw [hwr, hdl]
    simp [List.range_eq_range']
  · rw [hcons, hdl]

theorem readMessage_acks_mem (enabled : Bool) (a : Nat) (s : Nat → Int)
    (e : AckEvent) (he : e ∈ (readMessage enabled a s).acks) :
    e.tag ≠ FieldTag.masterField ∧ receiveBit s 1 ≠ 0 ∧
      receiveBits s 15 12 = a ∧ receiveBit s e.reqIdx = 0 := by
  cases enabled
  case false =>
    rw [readMessage_disabled] at he
    exact absurd he (List.not_mem_nil e)
  case true =>
  unfold readMessage at he
  rw [if_pos rfl] at he
  by_cases hsb : receiveStartBit s = true
  swap
  · rw [if_neg hsb] at he
    exact absurd he (List.not_mem_nil e)
  rw [if_pos hsb] at he
  have main : ∀ {tag : FieldTag} {v w p : Nat},
      e ∈ (fieldStep s a
        (if receiveBit s 1 = 0 then BroadcastType.BROADCAST
          else BroadcastType.FOR_DEVICE)
        (receiveBits s 15 12) tag v w p).acks →
      tag ≠ FieldTag.masterField →
      e.tag ≠ FieldTag.masterField ∧ receiveBit s 1 ≠ 0 ∧
        receiveBits s 15 12 = a ∧ receiveBit s e.reqIdx = 0 := by
    intro tag v w p hmem htag
    obtain ⟨h1, h2, h3, h4, h5⟩ := fieldStep_acks_mem hmem
    refine ⟨by rw [h1]; exact htag, ?_, h4, by rw [h2]; exact h5⟩
    intro h0
    rw [if_pos h0] at h3
    exact BroadcastType.noConfusion h3
  by_cases hm : checkParity (receiveBits s 2 12) 12 (receiveBit s 14) = true
  swap
  · rw [if_neg hm] at he
    exact absurd he (List.not_mem_nil e)
  rw [if_pos hm] at he
  by_cases hS : (fieldStep s a
      (if receiveBit s 1 = 0 then BroadcastType.BROADCAST
        else BroadcastType.FOR_DEVICE)
      (receiveBits s 15 12) FieldTag.slaveField (receiveBits s 15 12)
      12 15).ok = true
  swap
  · rw [if_neg hS] at he
    exact main he (by simp)
  rw [if_pos hS] at he
  set stSnext := (fieldStep s a
      (if receiveBit s 1 = 0 then BroadcastType.BROADCAST
        else BroadcastType.FOR_DEVICE)
      (receiveBits s 15 12) FieldTag.slaveField (receiveBits s 15 12)
      12 15).nextPos with hstSnext
  by_cases hC : (fieldStep s a
      (if receiveBit s 1 = 0 then BroadcastType.BROADCAST
        else BroadcastType.FOR_DEVICE)
      (receiveBits s 15 12) FieldTag.controlField
      (receiveBits s stSnext 4) 4 stSnext).ok = true
  swap
  · rw [if_neg hC] at he
    dsimp only at he
    rcases List.mem_append.mp he with hl | hr
    · exact main hl (by simp)
    · exact main hr (by simp)
  rw [if_pos hC] at he
  set stCnext := (fieldStep s a
      (if receiveBit s 1 = 0 then BroadcastType.BROADCAST
        else BroadcastType.FOR_DEVICE)
      (receiveBits s 15 12) FieldTag.controlField
      (receiveBits s stSnext 4) 4 stSnext).nextPos with hstCnext
  by_cases hL : (fieldStep s a
      (if receiveBit s 1 = 0 then BroadcastType.BROADCAST
        else BroadcastType.FOR_DEVICE)
      (receiveBits s 15 12) FieldTag.lengthField
      (receiveBits s stCnext 8) 8 stCnext).ok = true
  swap
  · rw [if_neg hL] at he
    dsimp only at he
    rcases List.mem_append.mp he with hl | hr
    · rcases List.mem_append.mp hl with hll | hlr
      · exact main hll (by simp)
      · exact main hlr (by simp)
    · exact main hr (by simp)
  rw [if_pos hL] at he
  rcases readDataLoop_acks s a _ _ _ _ _ _ _ [] e he with hin | hnew
  · rcases List.mem_append.mp hin with hl | hr
    · rcases List.mem_append.mp hl with hll | hlr
      · exact main hll (by simp)
      · exact main hlr (by simp)
    · exact main hr (by simp)
  · obtain ⟨hbc, hsl, hbit, j, htag⟩ := hnew
    refine ⟨by rw [htag]; simp, ?_, hsl, hbit⟩
    intro h0
    rw [if_pos h0] at hbc
    exact BroadcastType.noConfusion hbc

/-- Claim C1: during `readMessage`, a handshake bit is transmitted only
when the broadcast bit decodes to `FOR_DEVICE`, the received slave address
equals the configured local address, and the peer's handshake-request bit
was ACK; no handshake bit is ever transmitted for the master field. -/
theorem read_handshake_only_when_addressed (enabled : Bool) (a : Nat)
    (s : Nat → Int) (e : AckEvent)
    (he : e ∈ (readMessage enabled a s).acks) :
    e.tag ≠ FieldTag.masterField ∧
    (if receiveBit s 1 = 0 then BroadcastType.BROADCAST
      else BroadcastType.FOR_DEVICE) = BroadcastType.FOR_DEVICE ∧
    receiveBits s 15 12 = a ∧
    receiveAckBit s e.reqIdx = AcknowledgmentType.ACK := by
  obtain ⟨h1, h2, h3, h4⟩ := readMessage_acks_mem enabled a s e he
  exact ⟨h1, if_neg h2, h3, (receiveAckBit_eq_ACK s e.reqIdx).mpr h4⟩

/-- Witness for C1: on the concrete stream `wStream` with local address 0,
the handshake for the slave field is transmitted and the theorem's
conditions hold for it. -/
theorem read_handshake_only_when_addressed_witness :
    (⟨FieldTag.slaveField, 28, AcknowledgmentType.ACK⟩ : AckEvent).tag ≠
      FieldTag.masterField ∧
    (if receiveBit wStream 1 = 0 then BroadcastType.BROADCAST
      else BroadcastType.FOR_DEVICE) = BroadcastType.FOR_DEVICE ∧
    receiveBits wStream 15 12 = 0 ∧
    receiveAckBit wStream
      (⟨FieldTag.slaveField, 28, AcknowledgmentType.ACK⟩ : AckEvent).reqIdx =
      AcknowledgmentType.ACK :=
  read_handshake_only_when_addressed true 0 wStream
    ⟨FieldTag.slaveField, 28, AcknowledgmentType.ACK⟩ (by decide)

/-- Claim C2: `readMessage` returns no message when disabled, when no start
bit is detected, or when any field fails parity, consuming no further bus
input and transmitting nothing in the first two cases; every returned
message has every field received at its position in the stream and
parity-checked successfully. -/
theorem readMessage_error_handling (a : Nat) (s : Nat → Int) :
    readMessage false a s =
      { message := none, acks := [], consumed := 0, writes := [] } ∧
    (receiveStartBit s = false →
      readMessage true a s =
        { message := none, acks := [], consumed := 1, writes := [] }) ∧
    (∀ msg, (readMessage true a s).message = some msg →
      receiveStartBit s = true ∧
      msg.master = receiveBits s 2 12 ∧
      checkParity msg.master 12 (receiveBit s 14) = true ∧
      msg.slave = receiveBits s 15 12 ∧
      checkParity msg.slave 12 (receiveBit s 27) = true ∧
      msg.control = receiveBits s 29 4 ∧
      checkParity msg.control 4 (receiveBit s 33) = true ∧
      checkParity (receiveBits s 35 8) 8 (receiveBit s 43) = true ∧
      msg.dataLength = (if receiveBits s 35 8 = 0 then 256
        else receiveBits s 35 8) ∧
      (∀ i, i < msg.dataLength →
        msg.data i = receiveBits s (45 + 10 * i) 8 ∧
        checkParity (msg.data i) 8 (receiveBit s (45 + 10 * i + 8)) = true)) := by
  refine ⟨readMessage_disabled a s, readMessage_noStart a s, fun msg h => ?_⟩
  obtain ⟨h1, _, h3, h4, h5, h6, h7, h8, h9, h10, h11, _, _⟩ :=
    readMessage_some a s msg h
  exact ⟨h1, h3, h4, h5, h6, h7, h8, h9, h10, h11⟩

/-- Witness for C2: the no-start-bit case on a concrete flat stream, and
the complete-message case on `wStream`. -/
theorem readMessage_error_handling_witness :
    readMessage true 0 sNoStart =
      { message := none, acks := [], consumed := 1, writes := [] } ∧
    receiveStartBit wStream = true ∧
    msgW.master = receiveBits wStream 2 12 :=
  ⟨(readMessage_error_handling 0 sNoStart).2.1 (by decide),
   (((readMessage_error_handling 0 wStream).2.2 msgW (by rfl))).1,
   (((readMessage_error_handling 0 wStream).2.2 msgW (by rfl))).2.1⟩

/-- Claim C4: on read, a raw length-field value of 0 is remapped to the
logical length 256 and raw values 1 to 255 are kept unchanged; every
returned message has 1 ≤ dataLength ≤ 256 and the data loop writes exactly
the indices 0, ..., dataLength - 1 in order. -/
theorem readMessage_length_remap (a : Nat) (s : Nat → Int) (msg : Message)
    (h : (readMessage true a s).message = some msg) :
    (receiveBits s 35 8 = 0 → msg.dataLength = 256) ∧
    (receiveBits s 35 8 ≠ 0 → msg.dataLength = receiveBits s 35 8) ∧
    1 ≤ msg.dataLength ∧ msg.dataLength ≤ 256 ∧
    (readMessage true a s).writes = List.range msg.dataLength := by
  obtain ⟨_, _, _, _, _, _, _, _, _, h10, _, h12, _⟩ :=
    readMessage_some a s msg h
  have hlt : receiveBits s 35 8 < 256 := by
    simpa using receiveBits_lt s 35 8
  refine ⟨?_, ?_, ?_, ?_, h12⟩
  · intro h0; rw [h10, if_pos h0]
  · intro h0; rw [h10, if_neg h0]
  · rw [h10]; split_ifs with h0 <;> omega
  · rw [h10]; split_ifs with h0 <;> omega

/-- Witness for C4: the concrete stream `wStream` carries raw length 1,
which is kept unchanged. -/
theorem readMessage_length_remap_witness :
    msgW.dataLength = receiveBits wStream 35 8 ∧
    1 ≤ msgW.dataLength ∧ msgW.dataLength ≤ 256 := by
  have h := readMessage_length_remap 0 wStream msgW (by rfl)
  exact ⟨h.2.1 (by decide), h.2.2.1, h.2.2.2.1⟩

/-- Claim C9: every message returned by `readMessage` satisfies the data
model invariants: 12-bit master and slave addresses, 4-bit control,
1 ≤ dataLength ≤ 256, and a payload of exactly dataLength received bytes,
each at most 255. -/
theorem readMessage_invariants (a : Nat) (s : Nat → Int) (msg : Message)
    (h : (readMessage true a s).message = some msg) :
    msg.master ≤ 4095 ∧ msg.slave ≤ 4095 ∧ msg.control ≤ 15 ∧
    1 ≤ msg.dataLength ∧ msg.dataLength ≤ 256 ∧
    (∀ i, i < msg.dataLength → msg.data i ≤ 255 ∧
      msg.data i = receiveBits s (45 + 10 * i) 8) ∧
    (readMessage true a s).writes = List.range msg.dataLength := by
  obtain ⟨_, _, h3, _, h5, _, h7, _, _, h10, h11, h12, _⟩ :=
    readMessage_some a s msg h
  have hlt : receiveBits s 35 8 < 256 := by
    simpa using receiveBits_lt s 35 8
  refine ⟨?_, ?_, ?_, ?_, ?_, ?_, h12⟩
  · rw [h3]
    have := receiveBits_lt s 2 12
    norm_num at this
    omega
  · rw [h5]
    have := receiveBits_lt s 15 12
    norm_num at this
    omega
  · rw [h7]
    have := receiveBits_lt s 29 4
    norm_num at this
    omega
  · rw [h10]; split_ifs with h0 <;> omega
  · rw [h10]; split_ifs with h0 <;> omega
  · intro i hi
    obtain ⟨hd, _⟩ := h11 i hi
    refine ⟨?_, hd⟩
    rw [hd]
    have := receiveBits_lt s (45 + 10 * i) 8
    norm_num at this
    omega

/-- Witness for C9: the invariants at the concrete returned message
`msgW`. -/
theorem readMessage_invariants_witness :
    msgW.master ≤ 4095 ∧ msgW.dataLength ≤ 256 ∧
    msgW.data 0 = receiveBits wStream 45 8 := by
  have h := readMessage_invariants 0 wStream msgW (by rfl)
  exact ⟨h.1, h.2.2.2.2.1, (h.2.2.2.2.2.1 0 (by decide)).2⟩

theorem writeUpTo_zero (m : Message) :
    writeUpTo m 0 = writeHeader m ++ writeChunk m 0 := by
  unfold writeUpTo
  simp [List.range_succ]

theorem writeUpTo_succ (m : Message) (k : Nat) :
    writeUpTo m (k + 1) = writeUpTo m k ++ writeChunk m (k + 1) := by
  unfold writeUpTo
  rw [List.range_succ, List.map_append, List.flatten_append]
  simp [List.append_assoc]

theorem writeUpTo_one (m : Message) :
    writeUpTo m 1 = writeHeader m ++ writeChunk m 0 ++ writeChunk m 1 := by
  rw [writeUpTo_succ, writeUpTo_zero]

theorem writeUpTo_two (m : Message) :
    writeUpTo m 2 = writeHeader m ++ writeChunk m 0 ++ writeChunk m 1 ++
      writeChunk m 2 := by
  rw [writeUpTo_succ, writeUpTo_one]

theorem writeUpTo_split3 (m : Message) :
    ∀ j, writeUpTo m (j + 3) = writeUpTo m 2 ++
      ((List.range (j + 1)).map fun t => writeChunk m (t + 3)).flatten := by
  intro j
  induction j with
  | zero =>
    rw [writeUpTo_succ]
    simp [List.range_succ]
  | succ j ih =>
    have h1 : j + 1 + 3 = (j + 3) + 1 := by omega
    rw [h1, writeUpTo_succ, ih, List.append_assoc]
    congr 1
    conv_rhs => rw [List.range_succ]
    rw [List.map_append, List.flatten_append]
    simp [h1]

theorem writeDataLoop_zero (m : Message) (s : Nat → Int) (i : Nat)
    (tx : List TxItem) (reads : List Nat) :
    writeDataLoop m s i 0 tx reads =
      { success := true, tx := tx, reads := reads } :=
  rfl

theorem writeDataLoop_succ (m : Message) (s : Nat → Int) (i rem : Nat)
    (tx : List TxItem) (reads : List Nat) :
    writeDataLoop m s i (rem + 1) tx reads =
      (if receiveAckBit s (i + 3) = AcknowledgmentType.NAK then
        { success := false, tx := tx ++ writeChunk m (i + 3),
          reads := reads ++ [i] }
      else
        writeDataLoop m s (i + 1) rem (tx ++ writeChunk m (i + 3))
          (reads ++ [i])) :=
  rfl

theorem writeDataLoop_abort (m : Message) (s : Nat → Int) :
    ∀ (k rem i : Nat) (tx : List TxItem) (reads : List Nat),
      k < rem →
      (∀ j, j < k → receiveAckBit s (i + j + 3) ≠ AcknowledgmentType.NAK) →
      receiveAckBit s (i + k + 3) = AcknowledgmentType.NAK →
      writeDataLoop m s i rem tx reads =
        { success := false,
          tx := tx ++
            ((List.range (k + 1)).map fun j => writeChunk m (i + j + 3)).flatten,
          reads := reads ++ (List.range (k + 1)).map (i + ·) } := by
  intro k
  induction k with
  | zero =>
    intro rem i tx reads hk _ hnak
    obtain ⟨rem', rfl⟩ : ∃ r, rem = r + 1 := ⟨rem - 1, by omega⟩
    rw [writeDataLoop_succ, if_pos (by simpa using hnak)]
    simp [List.range_succ]
  | succ k ih =>
    intro rem i tx reads hk hack hnak
    obtain ⟨rem', rfl⟩ : ∃ r, rem = r + 1 := ⟨rem - 1, by omega⟩
    rw [writeDataLoop_succ]
    have h0 : ¬ receiveAckBit s (i + 3) = AcknowledgmentType.NAK := by
      have := hack 0 (by omega)
      simpa using this
    rw [if_neg h0]
    have hack' : ∀ j, j < k →
        receiveAckBit s (i + 1 + j + 3) ≠ AcknowledgmentType.NAK := by
      intro j hj
      have := hack (j + 1) (by omega)
      have e : i + (j + 1) + 3 = i + 1 + j + 3 := by omega
      rw [e] at this
      exact this
    have hnak' : receiveAckBit s (i + 1 + k + 3) = AcknowledgmentType.NAK := by
      have e : i + (k + 1) + 3 = i + 1 + k + 3 := by omega
      rw [e] at hnak
      exact hnak
    rw [ih rem' (i + 1) _ _ (by omega) hack' hnak']
    have hmaps : (List.range (k + 1)).map
          ((fun j => writeChunk m (i + j + 3)) ∘ Nat.succ) =
        (List.range (k + 1)).map (fun j => writeChunk m (i + 1 + j + 3)) := by
      apply List.map_congr_left
      intro t _
      simp only [Function.comp_apply]
      congr 1
      omega
    have htx : (tx ++ writeChunk m (i + 3)) ++
        ((List.range (k + 1)).map fun j => writeChunk m (i + 1 + j + 3)).flatten =
        tx ++
        ((List.range (k + 1 + 1)).map fun j => writeChunk m (i + j + 3)).flatten := by
      rw [List.append_assoc]
      congr 1
      conv_rhs => rw [List.range_succ_eq_map]
      rw [List.map_cons, List.flatten_cons, List.map_map, hmaps]
    have hmaps2 : (List.range (k + 1)).map ((fun x => i + x) ∘ Nat.succ) =
        (List.range (k + 1)).map ((i + 1) + ·) := by
      apply List.map_congr_left
      intro t _
      simp only [Function.comp_apply]
      omega
    have hrd : (reads ++ [i]) ++ (List.range (k + 1)).map ((i + 1) + ·) =
        reads ++ (List.range (k + 1 + 1)).map (i + ·) := by
      rw [List.append_assoc]
      congr 1
      conv_rhs => rw [List.range_succ_eq_map]
      rw [List.map_cons, List.map_map, hmaps2]
      simp
    rw [htx, hrd]

theorem writeDataLoop_reads_all (m : Message) (s : Nat → Int) :
    ∀ (rem i : Nat) (tx : List TxItem) (reads : List Nat),
      (∀ j, j < rem → receiveAckBit s (i + j + 3) ≠ AcknowledgmentType.NAK) →
      (writeDataLoop m s i rem tx reads).reads =
        reads ++ (List.range rem).map (i + ·) := by
  intro rem
  induction rem with
  | zero =>
    intro i tx reads _
    rw [writeDataLoop_zero]
    simp
  | succ rem ih =>
    intro i tx reads hall
    rw [writeDataLoop_succ,
      if_neg (by simpa using hall 0 (by omega))]
    rw [ih (i + 1) _ _ (fun j hj => by
      have := hall (j + 1) (by omega)
      have e : i + (j + 1) + 3 = i + 1 + j + 3 := by omega
      rw [e] at this
      exact this)]
    have hmaps2 : (List.range rem).map ((fun x => i + x) ∘ Nat.succ) =
        (List.range rem).map ((i + 1) + ·) := by
      apply List.map_congr_left
      intro t _
      simp only [Function.comp_apply]
      omega
    rw [List.append_assoc]
    congr 1
    conv_rhs => rw [List.range_succ_eq_map]
    rw [List.map_cons, List.map_map, hmaps2]
    simp

theorem writeDataLoop_reads_mem (m : Message) (s : Nat → Int) :
    ∀ (rem i : Nat) (tx : List TxItem) (reads : List Nat) (x : Nat),
      x ∈ (writeDataLoop m s i rem tx reads).reads →
      x ∈ reads ∨ x < i + rem := by
  intro rem
  induction rem with
  | zero =>
    intro i tx reads x hx
    rw [writeDataLoop_zero] at hx
    exact Or.inl hx
  | succ rem ih =>
    intro i tx reads x hx
    rw [writeDataLoop_succ] at hx
    by_cases hnak : receiveAckBit s (i + 3) = AcknowledgmentType.NAK
    · rw [if_pos hnak] at hx
      dsimp only at hx
      rcases List.mem_append.mp hx with hl | hr
      · exact Or.inl hl
      · simp only [List.mem_singleton] at hr
        exact Or.inr (by omega)
    · rw [if_neg hnak] at hx
      rcases ih (i + 1) _ _ x hx with hin | hlt
      · rcases List.mem_append.mp hin with hl | hr
        · exact Or.inl hl
        · simp only [List.mem_singleton] at hr
          exact Or.inr (by omega)
      · exact Or.inr (by omega)

theorem writeDataLoop_tx_ext (m : Message) (s : Nat → Int) :
    ∀ (rem i : Nat) (tx : List TxItem) (reads : List Nat),
      ∃ t, (writeDataLoop m s i rem tx reads).tx = tx ++ t := by
  intro rem
  induction rem with
  | zero =>
    intro i tx reads
    exact ⟨[], by rw [writeDataLoop_zero]; simp⟩
  | succ rem ih =>
    intro i tx reads
    rw [writeDataLoop_succ]
    by_cases hnak : receiveAckBit s (i + 3) = AcknowledgmentType.NAK
    · rw [if_pos hnak]
      exact ⟨writeChunk m (i + 3), rfl⟩
    · rw [if_neg hnak]
      obtain ⟨t, ht⟩ := ih (i + 1) (tx ++ writeChunk m (i + 3)) (reads ++ [i])
      exact ⟨writeChunk m (i + 3) ++ t, by rw [ht, List.append_assoc]⟩

theorem bits_mod_256 (v j : Nat) (hj : j < 8) :
    (v % 65536) >>> j &&& 1 = (v % 256) >>> j &&& 1 := by
  rw [shiftRight_and_one, shiftRight_and_one, ← Nat.mod_mul_right_div_self,
    ← Nat.mod_mul_right_div_self]
  have hp : (2:Nat) ^ j * 2 = 2 ^ (j + 1) := by rw [pow_succ]
  have h1 : v % 65536 % (2 ^ j * 2) = v % (2 ^ j * 2) := by
    apply Nat.mod_mod_of_dvd
    rw [hp]
    have h16 : (65536:Nat) = 2 ^ 16 := by norm_num
    rw [h16]
    exact pow_dvd_pow 2 (by omega)
  have h2 : v % 256 % (2 ^ j * 2) = v % (2 ^ j * 2) := by
    apply Nat.mod_mod_of_dvd
    rw [hp]
    have h8 : (256:Nat) = 2 ^ 8 := by norm_num
    rw [h8]
    exact pow_dvd_pow 2 (by omega)
  rw [h1, h2]

theorem calculateParity_mod_256 (v : Nat) :
    calculateParity (v % 65536) 8 = calculateParity (v % 256) 8 :=
  calculateParity_congr _ _ 8 (fun i hi => bits_mod_256 v i hi)

/-- Claim C3: `writeMessage` fails with no bus activity when disabled, and
for each handshake-awaited field (k = 0 slave, 1 control, 2 length,
3 + j payload byte j) a Rejected handshake, with every earlier handshake
Acknowledged, makes `writeMessage` stop after exactly that field's bits and
report failure. -/
theorem writeMessage_abort_on_reject (m : Message) (s : Nat → Int) :
    writeMessage false m s = { success := false, tx := [], reads := [] } ∧
    (∀ k, k < 3 + m.dataLength →
      (∀ j, j < k → receiveAckBit s j ≠ AcknowledgmentType.NAK) →
      receiveAckBit s k = AcknowledgmentType.NAK →
      (writeMessage true m s).success = false ∧
      (writeMessage true m s).tx = writeUpTo m k) := by
  refine ⟨rfl, fun k hk hack hnak => ?_⟩
  unfold writeMessage
  rw [if_pos rfl]
  rcases k with _ | _ | _ | j
  · rw [if_pos hnak]
    exact ⟨rfl, (writeUpTo_zero m).symm⟩
  · rw [if_neg (hack 0 (by omega)), if_pos hnak]
    exact ⟨rfl, (writeUpTo_one m).symm⟩
  · rw [if_neg (hack 0 (by omega)), if_neg (hack 1 (by omega)), if_pos hnak]
    exact ⟨rfl, (writeUpTo_two m).symm⟩
  · rw [if_neg (hack 0 (by omega)), if_neg (hack 1 (by omega)),
      if_neg (hack 2 (by omega))]
    have hjlt : j < m.dataLength := by omega
    have hack' : ∀ t, t < j →
        receiveAckBit s (0 + t + 3) ≠ AcknowledgmentType.NAK := by
      intro t ht
      have h := hack (t + 3) (by omega)
      have e : 0 + t + 3 = t + 3 := by omega
      rw [e]
      exact h
    have hnak' : receiveAckBit s (0 + j + 3) = AcknowledgmentType.NAK := by
      have e : 0 + j + 3 = j + 3 := by omega
      rw [e]
      exact hnak
    rw [writeDataLoop_abort m s j m.dataLength 0 _ [] hjlt hack' hnak']
    refine ⟨rfl, ?_⟩
    dsimp only
    have e3 : j + 1 + 1 + 1 = j + 3 := by omega
    rw [e3, writeUpTo_split3, writeUpTo_two]
    simp only [Nat.zero_add]

/-- Witness for C3: a Rejected handshake for the slave field (k = 0) on the
concrete message `mW` halts the write after the slave field. -/
theorem writeMessage_abort_on_reject_witness :
    (writeMessage true mW sAllNak).success = false ∧
    (writeMessage true mW sAllNak).tx = writeUpTo mW 0 :=
  (writeMessage_abort_on_reject mW sAllNak).2 0 (by decide)
    (fun j hj => absurd hj (Nat.not_lt_zero j)) (by decide)

/-- Claim C5: the write path transmits the length field literally as the
low 8 bits of `dataLength` (its value modulo 256, most-significant bit
first), with the parity bit computed over those same 8 bits; no 256-to-0
remap distinct from truncation is applied. -/
theorem writeMessage_length_truncation (m : Message) (s : Nat → Int)
    (h0 : receiveAckBit s 0 ≠ AcknowledgmentType.NAK)
    (h1 : receiveAckBit s 1 ≠ AcknowledgmentType.NAK) :
    ∃ rest, (writeMessage true m s).tx =
      writeUpTo m 1 ++
        ((List.range 8).map fun k =>
          TxItem.dataBit ((m.dataLength % 256) >>> (7 - k) &&& 1)) ++
        [TxItem.dataBit (calculateParity (m.dataLength % 256) 8)] ++ rest := by
  have hchunk : writeChunk m 2 =
      ((List.range 8).map fun k =>
        TxItem.dataBit ((m.dataLength % 256) >>> (7 - k) &&& 1)) ++
      [TxItem.dataBit (calculateParity (m.dataLength % 256) 8)] := by
    show (transmitBits (m.dataLength % 65536) 8).map TxItem.dataBit ++
        [TxItem.dataBit (calculateParity (m.dataLength % 65536) 8)] = _
    rw [calculateParity_mod_256]
    congr 1
    unfold transmitBits
    rw [List.map_map]
    apply List.map_congr_left
    intro k hk
    have hk8 : k < 8 := List.mem_range.mp hk
    simp only [Function.comp_apply]
    congr 1
    have e : 8 - 1 - k = 7 - k := by omega
    rw [e]
    exact bits_mod_256 m.dataLength (7 - k) (by omega)
  unfold writeMessage
  rw [if_pos rfl, if_neg h0, if_neg h1]
  by_cases h2 : receiveAckBit s 2 = AcknowledgmentType.NAK
  · rw [if_pos h2]
    refine ⟨[], ?_⟩
    dsimp only
    rw [hchunk, writeUpTo_one]
    simp [List.append_assoc]
  · rw [if_neg h2]
    obtain ⟨t, ht⟩ := writeDataLoop_tx_ext m s m.dataLength 0 _ []
    refine ⟨t, ?_⟩
    rw [ht, hchunk, writeUpTo_one]
    simp [List.append_assoc]

/-- Witness for C5: writing the concrete message of logical length 256, the
length field goes on the wire as the bits of 256 % 256 = 0. -/
theorem writeMessage_length_truncation_witness :
    ∃ rest, (writeMessage true mW256 sAllAck).tx =
      writeUpTo mW256 1 ++
        ((List.range 8).map fun k =>
          TxItem.dataBit ((mW256.dataLength % 256) >>> (7 - k) &&& 1)) ++
        [TxItem.dataBit (calculateParity (mW256.dataLength % 256) 8)] ++ rest :=
  writeMessage_length_truncation mW256 sAllAck (by decide) (by decide)

theorem readMessage_writes_lt (enabled : Bool) (a : Nat) (s : Nat → Int)
    (x : Nat) (hx : x ∈ (readMessage enabled a s).writes) : x < 256 := by
  cases enabled
  case false =>
    rw [readMessage_disabled] at hx
    exact absurd hx (List.not_mem_nil x)
  case true =>
  unfold readMessage at hx
  rw [if_pos rfl] at hx
  by_cases hsb : receiveStartBit s = true
  swap
  · rw [if_neg hsb] at hx
    exact absurd hx (List.not_mem_nil x)
  rw [if_pos hsb] at hx
  simp only [fieldStep_nextPos, fieldStep_ok] at hx
  norm_num at hx
  by_cases hm : checkParity (receiveBits s 2 12) 12 (receiveBit s 14) = true
  swap
  · rw [if_neg hm] at hx
    exact absurd hx (List.not_mem_nil x)
  rw [if_pos hm] at hx
  by_cases hS : checkParity (receiveBits s 15 12) 12 (receiveBit s 27) = true
  swap
  · rw [if_neg hS] at hx
    exact absurd hx (List.not_mem_nil x)
  rw [if_pos hS] at hx
  by_cases hC : checkParity (receiveBits s 29 4) 4 (receiveBit s 33) = true
  swap
  · rw [if_neg hC] at hx
    exact absurd hx (List.not_mem_nil x)
  rw [if_pos hC] at hx
  by_cases hL : checkParity (receiveBits s 35 8) 8 (receiveBit s 43) = true
  swap
  · rw [if_neg hL] at hx
    exact absurd hx (List.not_mem_nil x)
  rw [if_pos hL] at hx
  rcases readDataLoop_writes_mem s a _ _ _ 45 0 _ _ [] x hx with hin | hlt
  · exact absurd hin (List.not_mem_nil x)
  · have hraw : receiveBits s 35 8 < 256 := by
      simpa using receiveBits_lt s 35 8
    split_ifs at hlt <;> omega

theorem writeMessage_reads_lt (m : Message) (s : Nat → Int) (x : Nat)
    (hx : x ∈ (writeMessage true m s).reads) : x < m.dataLength := by
  unfold writeMessage at hx
  rw [if_pos rfl] at hx
  by_cases h0 : receiveAckBit s 0 = AcknowledgmentType.NAK
  · rw [if_pos h0] at hx
    exact absurd hx (List.not_mem_nil x)
  rw [if_neg h0] at hx
  by_cases h1 : receiveAckBit s 1 = AcknowledgmentType.NAK
  · rw [if_pos h1] at hx
    exact absurd hx (List.not_mem_nil x)
  rw [if_neg h1] at hx
  by_cases h2 : receiveAckBit s 2 = AcknowledgmentType.NAK
  · rw [if_pos h2] at hx
    exact absurd hx (List.not_mem_nil x)
  rw [if_neg h2] at hx
  rcases writeDataLoop_reads_mem m s m.dataLength 0 _ [] x hx with hin | hlt
  · exact absurd hin (List.not_mem_nil x)
  · omega

/-- Claim C10: every payload-array index written by `readMessage` is below
the fixed array size 256 unconditionally; `writeMessage` reads index i for
every i below the caller-supplied `dataLength` without any bound check, so
its accesses stay below 256 exactly when `dataLength ≤ 256`, and a message
with `dataLength > 256` makes it access the out-of-range index 256. -/
theorem payload_index_bounds :
    (∀ (enabled : Bool) (a : Nat) (s : Nat → Int) (x : Nat),
      x ∈ (readMessage enabled a s).writes → x < MAX_MESSAGE_SIZE) ∧
    (∀ (m : Message) (s : Nat → Int) (x : Nat),
      m.dataLength ≤ MAX_MESSAGE_SIZE →
      x ∈ (writeMessage true m s).reads → x < MAX_MESSAGE_SIZE) ∧
    (∀ (m : Message) (s : Nat → Int), MAX_MESSAGE_SIZE < m.dataLength →
      (∀ j, receiveAckBit s j ≠ AcknowledgmentType.NAK) →
      MAX_MESSAGE_SIZE ∈ (writeMessage true m s).reads) := by
  refine ⟨fun enabled a s x hx => readMessage_writes_lt enabled a s x hx,
    fun m s x hdl hx => ?_, fun m s hdl hall => ?_⟩
  · have := writeMessage_reads_lt m s x hx
    unfold MAX_MESSAGE_SIZE at hdl ⊢
    omega
  · unfold writeMessage
    rw [if_pos rfl, if_neg (hall 0), if_neg (hall 1), if_neg (hall 2)]
    rw [writeDataLoop_reads_all m s m.dataLength 0 _ []
      (fun j _ => hall (0 + j + 3))]
    simp only [List.nil_append]
    apply List.mem_map.mpr
    refine ⟨MAX_MESSAGE_SIZE, List.mem_range.mpr ?_, ?_⟩
    · unfold MAX_MESSAGE_SIZE at hdl ⊢
      omega
    · omega

/-- Witness for C10: a read index on `wStream`, a write index of the
in-range message `mW`, and the out-of-range access of `mW257`. -/
theorem payload_index_bounds_witness :
    (0 : Nat) < MAX_MESSAGE_SIZE ∧ (1 : Nat) < MAX_MESSAGE_SIZE ∧
    MAX_MESSAGE_SIZE ∈ (writeMessage true mW257 sAllAck).reads := by
  have hall : ∀ j, receiveAckBit sAllAck j ≠ AcknowledgmentType.NAK := by
    intro j
    have hACK : receiveAckBit sAllAck j = AcknowledgmentType.ACK := rfl
    rw [hACK]
    exact fun hcon => AcknowledgmentType.noConfusion hcon
  exact ⟨payload_index_bounds.1 true 0 wStream 0 (by decide),
    payload_index_bounds.2.1 mW sAllAck 1 (by decide) (by decide),
    payload_index_bounds.2.2 mW257 sAllAck (by decide) hall⟩

end IEBus
